import Mathlib

set_option autoImplicit false

/-!
Verification of the `ofc-indexeddb` typed IndexedDB wrapper
(`src/ofcIndexedDB.ts`) against its natural-language specification.

The embedding models a JavaScript record (object) as a list of
key/value entries where a lookup returns the *last* entry for a key,
exactly the semantics of building an object from entries
(later assignments and spreads win).  Property assignment `o[k] = v`
is therefore modelled by appending an entry, and the object spread
`{...a, ...b}` by list append.  A collection ("object store" with
`keyPath: 'id'`) is a list of records kept sorted by the `id` field,
which is how IndexedDB reports records (`getAll` and cursors iterate
in ascending key order).  Fallible engine calls are modelled with
`Except`; functions passed from the caller that may throw are
modelled as `Rec → Except String Bool`.
-/

namespace OfcIDB

/-- A JavaScript primitive value as stored in a record field. -/
inductive Val where
  | vStr (s : String)
  | vNum (n : Int)
  | vBool (b : Bool)
deriving DecidableEq

/-- JavaScript truthiness of a value: empty string, zero and `false`
are falsy, everything else is truthy. -/
def Val.truthy : Val → Bool
  | .vStr s => !(s == "")
  | .vNum n => !(n == 0)
  | .vBool b => b

/-- A record (JS object) is a list of field entries; lookups are
last-occurrence-wins, so this is extensionally a JS object. -/
abbrev Rec := List (String × Val)

/-- Field lookup: the value of the last entry carrying the key
(`undefined`, i.e. `none`, when the key is absent). -/
def getF : Rec → String → Option Val
  | [], _ => none
  | (k', v) :: rest, k =>
    match getF rest k with
    | some w => some w
    | none => if k' = k then some v else none

/-- Property assignment `r[k] = v`: extensionally, append the entry. -/
def setF (r : Rec) (k : String) (v : Val) : Rec :=
  r ++ ([(k, v)] : List (String × Val))

/-- Object spread `{...a, ...b}`: fields of `b` win over fields of `a`. -/
def spread2 (a b : Rec) : Rec := a ++ b

/-- Truthiness of a field (`undefined` is falsy). -/
def truthyF (r : Rec) (k : String) : Bool :=
  match getF r k with
  | some v => v.truthy
  | none => false

/-- Lexicographic comparison of character lists by code point, the
key comparison IndexedDB applies to string keys. -/
def lexLt : List Char → List Char → Bool
  | _, [] => false
  | [], _ :: _ => true
  | a :: as, b :: bs =>
    if a.toNat < b.toNat then true
    else if b.toNat < a.toNat then false
    else lexLt as bs

/-- String key order (code-point lexicographic). -/
def strLt (a b : String) : Bool := lexLt a.data b.data

/-- Inclusive string key order. -/
def strLe (a b : String) : Bool := strLt a b || a == b

/-- The `id` field of a record, read as a string (records persisted by
this system always carry a string id, per the `OfcRec` interface). -/
def idStr (r : Rec) : String :=
  match getF r "id" with
  | some (Val.vStr s) => s
  | _ => ""

/-- An object store with `keyPath: 'id'`: records listed in ascending
primary-key order, as cursors and `getAll` report them. -/
abbrev Store := List Rec

/-- `objectStore.get(key)` followed by the wrapper's not-found handling
(`ofcIndexedDB.get`, source lines 204-218): the record whose primary key
is `key`, or the empty-object sentinel `{}` when there is no match. -/
def getOp (s : Store) (key : String) : Rec :=
  match s.find? (fun r => idStr r = key) with
  | some r => r
  | none => []

/-- `objectStore.put(r)`: insert or overwrite by primary key, keeping
the store in ascending key order. -/
def putRec : Store → Rec → Store
  | [], r => [r]
  | x :: xs, r =>
    if strLt (idStr r) (idStr x) then r :: x :: xs
    else if idStr r = idStr x then r :: xs
    else x :: putRec xs r

/-- The merge step of `upsert` (source lines 492-508): start from a copy
of the input; if the input carries a truthy `id` and the fetched existing
record has a truthy `id`, overlay the input on the existing record. -/
def mergeOf (s : Store) (rec : Rec) : Rec :=
  if truthyF rec "id" then
    let existRec := getOp s (idStr rec)
    if truthyF existRec "id" then spread2 existRec rec else rec
  else rec

/-- One defaulting assignment `m[k] = !m[k] ? d : m[k]` (source lines
511, 514, 520, 523). -/
def defStep (r : Rec) (k : String) (d : Val) : Rec :=
  setF r k
    (match getF r k with
     | some v => if v.truthy then v else d
     | none => d)

/-- The `updated` assignment `m.updated = rec.updated ? rec.updated : now()`
(source line 517) — it reads the INPUT record, not the merged one. -/
def updStep (r rec : Rec) (now : String) : Rec :=
  setF r "updated"
    (match getF rec "updated" with
     | some v => if v.truthy then v else Val.vStr now
     | none => Val.vStr now)

/-- The final record `upsert` persists: merge, then default `id`,
`inserted`, `updated`, `deleted` and `is_delete` in source order
(lines 492-523).  `genId` and `now` are the values the id and timestamp
generators return for this call. -/
def upsertFinal (s : Store) (rec : Rec) (genId now : String) : Rec :=
  let m0 := mergeOf s rec
  let m1 := defStep m0 "id" (Val.vStr genId)
  let m2 := defStep m1 "inserted" (Val.vStr now)
  let m3 := updStep m2 rec now
  let m4 := defStep m3 "deleted" (Val.vStr "")
  defStep m4 "is_delete" (Val.vBool false)

/-- `ofcIndexedDB.upsert` (source lines 471-542): put the final record
and resolve with its id. -/
def upsert (s : Store) (rec : Rec) (genId now : String) : Store × String :=
  let f := upsertFinal s rec genId now
  (putRec s f, idStr f)

/-- The object literal `{id: key, is_delete: true, deleted: now()}`
that logical deletion upserts (source line 577). -/
def logicalDelRec (key now : String) : Rec :=
  [("id", Val.vStr key), ("is_delete", Val.vBool true), ("deleted", Val.vStr now)]

/-- `ofcIndexedDB.delete` (source lines 559-604): logical mode upserts
`{id: key, is_delete: true, deleted: now()}` and resolves `true`;
physical mode removes the record by primary key and resolves `true`. -/
def deleteOp (s : Store) (key : String) (logical : Bool) (genId now : String) :
    Store × Bool :=
  if logical then
    ((upsert s (logicalDelRec key now) genId now).1, true)
  else
    (s.filter (fun r => !(idStr r = key : Bool)), true)

/-- `ofcIndexedDB.clear` (source lines 617-638). -/
def clearOp (_ : Store) : Store × Bool := ([], true)

/-- `ofcIndexedDB.count` (source lines 239-260): total record count,
soft-deleted records included. -/
def countOp (s : Store) : Nat := s.length

/-- `ofcIndexedDB.list` (source lines 276-341), primary-key ranges:
both bounds equal ⇒ `IDBKeyRange.only`; both present and different ⇒
`IDBKeyRange.bound` (which the engine rejects with a `DataError` when
the lower bound exceeds the upper); only `from` ⇒ `lowerBound`; only
`to` ⇒ `upperBound`; neither ⇒ full `getAll()`. -/
def listOp (s : Store) (f t : Option String) : Except String (List Rec) :=
  match f, t with
  | some f, some t =>
    if f = t then Except.ok (s.filter (fun r => idStr r = f))
    else if strLe f t then
      Except.ok (s.filter (fun r => strLe f (idStr r) && strLe (idStr r) t))
    else Except.error "DataError"
  | some f, none => Except.ok (s.filter (fun r => strLe f (idStr r)))
  | none, some t => Except.ok (s.filter (fun r => strLe (idStr r) t))
  | none, none => Except.ok s

/-- The `where` argument of `select` as it arrives through the untyped
call path: a function (which may throw when evaluated on a record), or
any non-function value. -/
inductive WhereArg where
  | fn (f : Rec → Except String Bool)
  | notFn

/-- One cursor visit of `select` (source lines 389-437): skip a
soft-deleted record unless `includeDeleted`; otherwise evaluate the
condition — a non-function `where` is replaced by `() => true`
(line 423), and a predicate that throws is caught and treated as
false for this record, the scan continuing. -/
def visitKeeps (includeDeleted : Bool) (w : WhereArg) (rec : Rec) : Bool :=
  if !includeDeleted && truthyF rec "is_delete" then false
  else
    match w with
    | .notFn => true
    | .fn f =>
      match f rec with
      | .ok b => b
      | .error _ => false

/-- `ofcIndexedDB.select` (source lines 364-444): full forward-cursor
scan; `includeDeleted` defaults to `false` (line 377). -/
def selectOp (s : Store) (w : WhereArg) (includeDeleted? : Option Bool) : List Rec :=
  s.filter (visitKeeps (includeDeleted?.getD false) w)

/-- The `select` method of the object `defineStore` returns (source
lines 710-721): `logicalDelete` defaults to `true`, a missing `where`
becomes `() => true`, and the primitive is called with
`{includeDeleted: !logicalDelete}`. -/
def definedStoreSelect (logicalDelete? : Option Bool) (s : Store)
    (w : Option (Rec → Except String Bool)) : List Rec :=
  let logicalDelete := logicalDelete?.getD true
  selectOp s (WhereArg.fn (w.getD (fun _ => Except.ok true))) (some (!logicalDelete))

/-- The `select` method of the object `bindStore` returns (source lines
785-786): it only forwards to the `defineStore` object's method. -/
def boundStoreSelect (logicalDelete? : Option Bool) (s : Store)
    (w : Option (Rec → Except String Bool)) : List Rec :=
  definedStoreSelect logicalDelete? s w

/-- How the promise returned by `connect` settles. -/
inductive ConnectResult where
  /-- `resolve(db)` from the success handler (source line 78). -/
  | resolved
  /-- `reject(new Error("Failed to connect to the database."))` from the
  error handler (source line 81). -/
  | rejectedConnect
  /-- `reject(new Error("Failed to create to the database."))` from the
  `catch` branch of the upgrade-hook wiring (source line 97). -/
  | rejectedCreate
  /-- no handler fired; the promise never settles. -/
  | pending
deriving DecidableEq

/-- The handlers installed on the `IDBOpenDBRequest` by `connect`'s
executor; `upgradeHandler = some b` records that an upgrade handler was
assigned whose callback throws iff `b`. -/
structure OpenRequest where
  onsuccess : Bool
  onerror : Bool
  upgradeHandler : Option Bool

/-- Assigning `openResult.onupgradeneeded = (e) => createFunc(...)`
(source line 92): a plain property write storing a closure. It cannot
itself throw — the callback only runs later, when the event fires. -/
def assignUpgradeHandler (req : OpenRequest) (callbackThrows : Bool) :
    Except String OpenRequest :=
  Except.ok { req with upgradeHandler := some callbackThrows }

/-- The executor of the promise `connect` returns (source lines 66-103):
install success/error handlers; when a creation callback is supplied,
assign the upgradeneeded handler inside `try { ... } catch`, the `catch`
rejecting with the creation-failure error (line 97).  Returns the
configured request and an immediate settlement if the `catch` ran. -/
def connectExecutor (hasCreateFunc createFuncThrows : Bool) :
    OpenRequest × Option ConnectResult :=
  let req : OpenRequest := { onsuccess := true, onerror := true, upgradeHandler := none }
  if hasCreateFunc then
    match assignUpgradeHandler req createFuncThrows with
    | Except.ok req2 => (req2, none)
    | Except.error _ => (req, some ConnectResult.rejectedCreate)
  else (req, none)

/-- The host engine's event delivery for an open request, per the
IndexedDB specification: a failing open fires the error event; when an
upgrade is needed and the assigned upgradeneeded handler throws, the
upgrade transaction aborts and the open request fires its error event;
otherwise the success event fires. -/
def engineRun (req : OpenRequest) (needsUpgrade openFails : Bool) : ConnectResult :=
  if openFails then
    if req.onerror then ConnectResult.rejectedConnect else ConnectResult.pending
  else
    match req.upgradeHandler, needsUpgrade with
    | some throws, true =>
      if throws then
        if req.onerror then ConnectResult.rejectedConnect else ConnectResult.pending
      else if req.onsuccess then ConnectResult.resolved else ConnectResult.pending
    | _, _ => if req.onsuccess then ConnectResult.resolved else ConnectResult.pending

/-- End-to-end settlement of `connect`: run the executor, then let the
engine deliver the open request's events. -/
def connectModel (hasCreateFunc createFuncThrows needsUpgrade openFails : Bool) :
    ConnectResult :=
  match connectExecutor hasCreateFunc createFuncThrows with
  | (_, some r) => r
  | (req, none) => engineRun req needsUpgrade openFails

/-- Whether a settlement is the creation-failure rejection. -/
def isRejectedCreate : ConnectResult → Bool
  | ConnectResult.rejectedCreate => true
  | _ => false

/-- One store-mutating operation of the system, with the values its id
and timestamp generators return for the call. -/
inductive Op where
  | opUpsert (rec : Rec) (genId now : String)
  | opDelete (key : String) (logical : Bool) (genId now : String)
  | opClear

/-- Apply one operation to a collection. -/
def applyOp (s : Store) : Op → Store
  | Op.opUpsert rec g n => (upsert s rec g n).1
  | Op.opDelete k logical g n => (deleteOp s k logical g n).1
  | Op.opClear => (clearOp s).1

/-- Run a sequence of operations. -/
def runOps (s : Store) (ops : List Op) : Store := ops.foldl applyOp s

/-- The spec's soft-delete record invariant: a record is marked deleted
exactly when it carries a non-empty `deleted` timestamp. -/
def delOk (r : Rec) : Bool := truthyF r "is_delete" = truthyF r "deleted"

/-- The invariant over a whole collection. -/
def storeDelInv (s : Store) : Prop := ∀ r ∈ s, delOk r = true

/-- An upsert input whose `is_delete`/`deleted` fields are supplied
consistently: both present or both absent, and truthy together. -/
def inputOk (rec : Rec) : Bool :=
  ((getF rec "is_delete").isSome = (getF rec "deleted").isSome) &&
  (truthyF rec "is_delete" = truthyF rec "deleted")

/-- Operations that keep the soft-delete invariant: upserts with
consistent inputs, logical deletes with a non-empty timestamp, and
all physical deletes and clears. -/
def opOk : Op → Bool
  | Op.opUpsert rec _ _ => inputOk rec
  | Op.opDelete _ logical _ now => !logical || !(now == "")
  | Op.opClear => true

/-- What claim C1 asserts about an upsert whose non-empty-id input hits
an existing record: the merge overlays the input on the existing record
per-field (input wins on fields it supplies), every non-reserved field
of the persisted record comes from that overlay, `inserted` is kept from
the existing record when the input does not supply one, and `updated`
is refreshed to the timestamp when the input does not supply one. -/
def C1FoundPost (s : Store) (rec : Rec) (genId now : String) : Prop :=
  (∀ k, getF (mergeOf s rec) k =
      match getF rec k with
      | some w => some w
      | none => getF (getOp s (idStr rec)) k) ∧
  (∀ k, k ≠ "id" → k ≠ "inserted" → k ≠ "updated" → k ≠ "deleted" → k ≠ "is_delete" →
      getF (upsertFinal s rec genId now) k =
        match getF rec k with
        | some w => some w
        | none => getF (getOp s (idStr rec)) k) ∧
  (getF rec "inserted" = none → truthyF (getOp s (idStr rec)) "inserted" = true →
      getF (upsertFinal s rec genId now) "inserted" =
        getF (getOp s (idStr rec)) "inserted") ∧
  (getF rec "updated" = none →
      getF (upsertFinal s rec genId now) "updated" = some (Val.vStr now))

/-- The stored record `{id: "k", a: "A", b: "B", ...}` of the spec's
merge example. -/
def C1exist : Rec :=
  [("id", Val.vStr "k"), ("a", Val.vStr "A"), ("b", Val.vStr "B"),
   ("inserted", Val.vStr "t0"), ("updated", Val.vStr "t0"),
   ("deleted", Val.vStr ""), ("is_delete", Val.vBool false)]

/-- The upsert input `{id: "k", b: "B2"}` of the spec's merge example. -/
def C1input : Rec := [("id", Val.vStr "k"), ("b", Val.vStr "B2")]

/-- What claim C3 asserts of a logical delete: it is exactly the upsert
of `{id: key, is_delete: true, deleted: now()}`, resolves `true`; the
record then fetched by the key is soft-deleted with a non-empty
`deleted`, keeps every non-reserved field of a previously existing
record, is excluded from a default `select`, and is included in `list`
and in a `select` with `includeDeleted: true`. -/
def C3Post (s : Store) (key genId now : String) : Prop :=
  (deleteOp s key true genId now).2 = true ∧
  (deleteOp s key true genId now).1 = (upsert s (logicalDelRec key now) genId now).1 ∧
  getOp (deleteOp s key true genId now).1 key =
    upsertFinal s (logicalDelRec key now) genId now ∧
  truthyF (upsertFinal s (logicalDelRec key now) genId now) "is_delete" = true ∧
  truthyF (upsertFinal s (logicalDelRec key now) genId now) "deleted" = true ∧
  (truthyF (getOp s key) "id" = true →
    ∀ k, k ≠ "id" → k ≠ "inserted" → k ≠ "updated" → k ≠ "deleted" → k ≠ "is_delete" →
      getF (upsertFinal s (logicalDelRec key now) genId now) k = getF (getOp s key) k) ∧
  (∀ w, upsertFinal s (logicalDelRec key now) genId now ∉
      selectOp (deleteOp s key true genId now).1 w none) ∧
  listOp (deleteOp s key true genId now).1 none none =
    Except.ok (deleteOp s key true genId now).1 ∧
  upsertFinal s (logicalDelRec key now) genId now ∈ (deleteOp s key true genId now).1 ∧
  upsertFinal s (logicalDelRec key now) genId now ∈
    selectOp (deleteOp s key true genId now).1
      (WhereArg.fn (fun _ => Except.ok true)) (some true)

/-- What claim C4 asserts of an upsert of a domain record carrying none
of the reserved fields: it resolves with the generated non-empty id, a
get of that id returns the persisted record, whose non-reserved fields
are the input's, with `inserted = updated`, `is_delete = false` and
`deleted = ""`. -/
def C4Post (s : Store) (r : Rec) (genId now : String) : Prop :=
  (upsert s r genId now).2 = genId ∧
  genId ≠ "" ∧
  getOp (upsert s r genId now).1 genId = upsertFinal s r genId now ∧
  (∀ k, k ≠ "id" → k ≠ "inserted" → k ≠ "updated" → k ≠ "deleted" → k ≠ "is_delete" →
      getF (upsertFinal s r genId now) k = getF r k) ∧
  getF (upsertFinal s r genId now) "id" = some (Val.vStr genId) ∧
  getF (upsertFinal s r genId now) "inserted" = getF (upsertFinal s r genId now) "updated" ∧
  getF (upsertFinal s r genId now) "inserted" = some (Val.vStr now) ∧
  getF (upsertFinal s r genId now) "is_delete" = some (Val.vBool false) ∧
  getF (upsertFinal s r genId now) "deleted" = some (Val.vStr "")

/-- The `get` not-found sentinel behaviour claim C4 also asserts: a key
matching no record resolves to the empty object, which has no `id`. -/
def C4Sentinel : Prop :=
  ∀ (s : Store) (key : String), (∀ x ∈ s, idStr x ≠ key) →
    getOp s key = ([] : Rec) ∧ getF ([] : Rec) "id" = none

/-- Record with id `k1` for the spec's range example. -/
def C5r1 : Rec := [("id", Val.vStr "k1"), ("v", Val.vNum 1)]

/-- Record with id `k2` for the spec's range example. -/
def C5r2 : Rec := [("id", Val.vStr "k2"), ("v", Val.vNum 2)]

/-- Record with id `k3` for the spec's range example. -/
def C5r3 : Rec := [("id", Val.vStr "k3"), ("v", Val.vNum 3)]

/-- A live (not soft-deleted) record used to witness select claims. -/
def liveRec : Rec := [("id", Val.vStr "x"), ("is_delete", Val.vBool false)]

/-- A predicate that throws on the record with id `bad` and accepts
every other record, used to witness claim C8. -/
def throwingWhere (r : Rec) : Except String Bool :=
  if idStr r = "bad" then Except.error "boom" else Except.ok true

/-- The record the witness predicate throws on. -/
def badRec : Rec := [("id", Val.vStr "bad")]

/-- What claim C5 asserts: the range-construction priority order of
`list` — equal bounds exact-match, distinct ordered bounds inclusive,
single bounds open-ended, no bounds the whole collection — plus the
concrete slices on the example ids `k1 < k2 < k3`. -/
def C5Post (s : Store) (f t : String) : Prop :=
  listOp s (some f) (some f) = Except.ok (s.filter (fun r => idStr r = f)) ∧
  listOp s (some f) (some t) =
    Except.ok (s.filter (fun r => strLe f (idStr r) && strLe (idStr r) t)) ∧
  listOp s (some f) none = Except.ok (s.filter (fun r => strLe f (idStr r))) ∧
  listOp s none (some t) = Except.ok (s.filter (fun r => strLe (idStr r) t)) ∧
  listOp s none none = Except.ok s ∧
  listOp [C5r1, C5r2, C5r3] (some "k1") (some "k1") = Except.ok [C5r1] ∧
  listOp [C5r1, C5r2, C5r3] (some "k1") (some "k3") = Except.ok [C5r1, C5r2, C5r3] ∧
  listOp [C5r1, C5r2, C5r3] (some "k2") none = Except.ok [C5r2, C5r3] ∧
  listOp [C5r1, C5r2, C5r3] none (some "k2") = Except.ok [C5r1, C5r2]

/-- A stored record with domain fields `a` and `b`, used to witness the
logical-delete claim. -/
def C3exist : Rec :=
  [("id", Val.vStr "k"), ("a", Val.vStr "A"), ("b", Val.vStr "B"),
   ("inserted", Val.vStr "t0"), ("updated", Val.vStr "t0"),
   ("deleted", Val.vStr ""), ("is_delete", Val.vBool false)]

/-- A fresh domain record with no reserved fields, used to witness the
round-trip claim. -/
def C4input : Rec := [("name", Val.vStr "Alice"), ("age", Val.vNum 28)]

theorem getF_append (a b : Rec) (k : String) :
    getF (a ++ b) k = match getF b k with | some w => some w | none => getF a k := by
  induction a with
  | nil =>
      show getF b k = _
      cases getF b k <;> rfl
  | cons x a ih =>
      show (match getF (a ++ b) k with
            | some w => some w
            | none => if x.1 = k then some x.2 else none) = _
      rw [ih]
      cases hb : getF b k with
      | some w => rfl
      | none =>
          show (match getF a k with
                | some w => some w
                | none => if x.1 = k then some x.2 else none) = _
          rfl

theorem getF_setF_same (r : Rec) (k : String) (v : Val) :
    getF (setF r k v) k = some v := by
  show getF (r ++ _) k = some v
  rw [getF_append]
  show (match (if k = k then some v else none : Option Val) with
        | some w => some w | none => getF r k) = some v
  simp

theorem getF_setF_ne (r : Rec) (k k' : String) (v : Val) (h : k' ≠ k) :
    getF (setF r k v) k' = getF r k' := by
  show getF (r ++ _) k' = getF r k'
  rw [getF_append]
  show (match (if k = k' then some v else none : Option Val) with
        | some w => some w | none => getF r k') = getF r k'
  rw [if_neg (fun hh => h hh.symm)]

theorem getF_spread2 (a b : Rec) (k : String) :
    getF (spread2 a b) k = match getF b k with | some w => some w | none => getF a k :=
  getF_append a b k

theorem lexLt_irrefl (l : List Char) : lexLt l l = false := by
  induction l with
  | nil => rfl
  | cons a as ih => simp [lexLt, Nat.lt_irrefl, ih]

theorem strLt_irrefl (s : String) : strLt s s = false := lexLt_irrefl s.data

theorem getF_defStep_same (r : Rec) (k : String) (d : Val) :
    getF (defStep r k d) k =
      some (match getF r k with
            | some v => if v.truthy then v else d
            | none => d) :=
  getF_setF_same r k _

theorem getF_defStep_ne (r : Rec) (k k' : String) (d : Val) (h : k' ≠ k) :
    getF (defStep r k d) k' = getF r k' :=
  getF_setF_ne r k k' _ h

theorem getF_updStep_same (r rec : Rec) (now : String) :
    getF (updStep r rec now) "updated" =
      some (match getF rec "updated" with
            | some v => if v.truthy then v else Val.vStr now
            | none => Val.vStr now) :=
  getF_setF_same r "updated" _

theorem getF_updStep_ne (r rec : Rec) (now : String) (k' : String)
    (h : k' ≠ "updated") : getF (updStep r rec now) k' = getF r k' :=
  getF_setF_ne r "updated" k' _ h

theorem getF_upsertFinal_id (s : Store) (rec : Rec) (g n : String) :
    getF (upsertFinal s rec g n) "id" =
      some (match getF (mergeOf s rec) "id" with
            | some v => if v.truthy then v else Val.vStr g
            | none => Val.vStr g) := by
  unfold upsertFinal
  rw [getF_defStep_ne _ _ _ _ (by decide), getF_defStep_ne _ _ _ _ (by decide),
    getF_updStep_ne _ _ _ _ (by decide), getF_defStep_ne _ _ _ _ (by decide),
    getF_defStep_same]

theorem getF_upsertFinal_inserted (s : Store) (rec : Rec) (g n : String) :
    getF (upsertFinal s rec g n) "inserted" =
      some (match getF (mergeOf s rec) "inserted" with
            | some v => if v.truthy then v else Val.vStr n
            | none => Val.vStr n) := by
  unfold upsertFinal
  rw [getF_defStep_ne _ _ _ _ (by decide), getF_defStep_ne _ _ _ _ (by decide),
    getF_updStep_ne _ _ _ _ (by decide), getF_defStep_same,
    getF_defStep_ne _ _ _ _ (by decide)]

theorem getF_upsertFinal_updated (s : Store) (rec : Rec) (g n : String) :
    getF (upsertFinal s rec g n) "updated" =
      some (match getF rec "updated" with
            | some v => if v.truthy then v else Val.vStr n
            | none => Val.vStr n) := by
  unfold upsertFinal
  rw [getF_defStep_ne _ _ _ _ (by decide), getF_defStep_ne _ _ _ _ (by decide),
    getF_updStep_same]

theorem getF_upsertFinal_deleted (s : Store) (rec : Rec) (g n : String) :
    getF (upsertFinal s rec g n) "deleted" =
      some (match getF (mergeOf s rec) "deleted" with
            | some v => if v.truthy then v else Val.vStr ""
            | none => Val.vStr "") := by
  unfold upsertFinal
  rw [getF_defStep_ne _ _ _ _ (by decide), getF_defStep_same,
    getF_updStep_ne _ _ _ _ (by decide), getF_defStep_ne _ _ _ _ (by decide),
    getF_defStep_ne _ _ _ _ (by decide)]

theorem getF_upsertFinal_is_delete (s : Store) (rec : Rec) (g n : String) :
    getF (upsertFinal s rec g n) "is_delete" =
      some (match getF (mergeOf s rec) "is_delete" with
            | some v => if v.truthy then v else Val.vBool false
            | none => Val.vBool false) := by
  unfold upsertFinal
  rw [getF_defStep_same, getF_defStep_ne _ _ _ _ (by decide),
    getF_updStep_ne _ _ _ _ (by decide), getF_defStep_ne _ _ _ _ (by decide),
    getF_defStep_ne _ _ _ _ (by decide)]

theorem getF_upsertFinal_other (s : Store) (rec : Rec) (g n : String) (k : String)
    (h1 : k ≠ "id") (h2 : k ≠ "inserted") (h3 : k ≠ "updated")
    (h4 : k ≠ "deleted") (h5 : k ≠ "is_delete") :
    getF (upsertFinal s rec g n) k = getF (mergeOf s rec) k := by
  unfold upsertFinal
  rw [getF_defStep_ne _ _ _ _ h5, getF_defStep_ne _ _ _ _ h4,
    getF_updStep_ne _ _ _ _ h3, getF_defStep_ne _ _ _ _ h2,
    getF_defStep_ne _ _ _ _ h1]

theorem mergeOf_no_id {s : Store} {rec : Rec} (h : truthyF rec "id" = false) :
    mergeOf s rec = rec := by
  unfold mergeOf
  simp [h]

theorem mergeOf_not_found {s : Store} {rec : Rec}
    (h : truthyF (getOp s (idStr rec)) "id" = false) : mergeOf s rec = rec := by
  unfold mergeOf
  split
  · simp [h]
  · rfl

theorem getF_mergeOf_found {s : Store} {rec : Rec}
    (h1 : truthyF rec "id" = true)
    (h2 : truthyF (getOp s (idStr rec)) "id" = true) (k : String) :
    getF (mergeOf s rec) k =
      match getF rec k with
      | some w => some w
      | none => getF (getOp s (idStr rec)) k := by
  unfold mergeOf
  simp only [h1, h2, if_true]
  exact getF_spread2 _ _ k

theorem getOp_putRec (s : Store) (f : Rec) : getOp (putRec s f) (idStr f) = f := by
  induction s with
  | nil => simp [putRec, getOp, List.find?]
  | cons x xs ih =>
      unfold putRec
      split
      · simp [getOp, List.find?]
      · split
        case isTrue => simp [getOp, List.find?]
        case isFalse h1 h2 =>
            have hx : (idStr x = idStr f) = False :=
              eq_false (fun he => h2 he.symm)
            unfold getOp at ih ⊢
            rw [List.find?_cons]
            simp only [hx, decide_False]
            exact ih

theorem mem_putRec {s : Store} {f r : Rec} (h : r ∈ putRec s f) : r = f ∨ r ∈ s := by
  induction s with
  | nil =>
      simp [putRec] at h
      exact Or.inl h
  | cons x xs ih =>
      unfold putRec at h
      split at h
      · rcases List.mem_cons.mp h with h' | h'
        · exact Or.inl h'
        · exact Or.inr h'
      · split at h
        · rcases List.mem_cons.mp h with h' | h'
          · exact Or.inl h'
          · exact Or.inr (List.mem_cons_of_mem x h')
        · rcases List.mem_cons.mp h with h' | h'
          · exact Or.inr (h' ▸ List.mem_cons_self x xs)
          · rcases ih h' with h'' | h''
            · exact Or.inl h''
            · exact Or.inr (List.mem_cons_of_mem x h'')

theorem self_mem_putRec (s : Store) (f : Rec) : f ∈ putRec s f := by
  induction s with
  | nil => simp [putRec]
  | cons x xs ih =>
      unfold putRec
      split
      · exact List.mem_cons_self f _
      · split
        · exact List.mem_cons_self f _
        · exact List.mem_cons_of_mem x ih

theorem getOp_mem_of_truthy {s : Store} {key : String}
    (h : truthyF (getOp s key) "id" = true) : getOp s key ∈ s := by
  unfold getOp at *
  cases hf : s.find? (fun r => idStr r = key) with
  | some r =>
      exact List.mem_of_find?_eq_some hf
  | none =>
      rw [hf] at h
      exact absurd h (by decide)

theorem getOp_not_found {s : Store} {key : String}
    (h : ∀ r ∈ s, idStr r ≠ key) : getOp s key = [] := by
  unfold getOp
  rw [List.find?_eq_none.mpr]
  intro r hr
  simpa using h r hr

theorem strLt_ne {a b : String} (h : strLt a b = true) : a ≠ b := by
  intro he
  rw [he, strLt_irrefl] at h
  exact Bool.noConfusion h

theorem visitKeeps_deleted {w : WhereArg} {r : Rec}
    (h : truthyF r "is_delete" = true) : visitKeeps false w r = false := by
  simp [visitKeeps, h]

theorem visitKeeps_throw {f : Rec → Except String Bool} {r : Rec} {e : String}
    (hf : f r = Except.error e) (inc : Bool) :
    visitKeeps inc (WhereArg.fn f) r = false := by
  unfold visitKeeps
  split
  · rfl
  · simp [hf]

theorem truthyF_upsertFinal_is_delete (s : Store) (rec : Rec) (g n : String) :
    truthyF (upsertFinal s rec g n) "is_delete" =
      truthyF (mergeOf s rec) "is_delete" := by
  unfold truthyF
  rw [getF_upsertFinal_is_delete]
  cases h : getF (mergeOf s rec) "is_delete" with
  | none => rfl
  | some v =>
      show (if v.truthy = true then v else Val.vBool false).truthy = v.truthy
      cases hv : v.truthy
      · rfl
      · exact hv

theorem truthyF_upsertFinal_deleted (s : Store) (rec : Rec) (g n : String) :
    truthyF (upsertFinal s rec g n) "deleted" =
      truthyF (mergeOf s rec) "deleted" := by
  unfold truthyF
  rw [getF_upsertFinal_deleted]
  cases h : getF (mergeOf s rec) "deleted" with
  | none => rfl
  | some v =>
      show (if v.truthy = true then v else Val.vStr "").truthy = v.truthy
      cases hv : v.truthy
      · rfl
      · exact hv

theorem mergeOf_delOk {s : Store} {rec : Rec}
    (hs : storeDelInv s) (hin : inputOk rec = true) :
    truthyF (mergeOf s rec) "is_delete" = truthyF (mergeOf s rec) "deleted" := by
  unfold inputOk at hin
  simp only [Bool.and_eq_true] at hin
  have hiso : (getF rec "is_delete").isSome = (getF rec "deleted").isSome :=
    of_decide_eq_true hin.1
  have htr : truthyF rec "is_delete" = truthyF rec "deleted" :=
    of_decide_eq_true hin.2
  unfold mergeOf
  by_cases hid : truthyF rec "id" = true
  · simp only [hid, if_true]
    by_cases hex : truthyF (getOp s (idStr rec)) "id" = true
    · simp only [hex, if_true]
      have hex2 : truthyF (getOp s (idStr rec)) "is_delete" =
          truthyF (getOp s (idStr rec)) "deleted" :=
        of_decide_eq_true (hs _ (getOp_mem_of_truthy hex))
      unfold truthyF at htr hex2 ⊢
      rw [getF_spread2, getF_spread2]
      cases h1 : getF rec "is_delete" with
      | some v1 =>
          cases h2 : getF rec "deleted" with
          | some v2 => simpa [h1, h2] using htr
          | none => rw [h1, h2] at hiso; simp at hiso
      | none =>
          cases h2 : getF rec "deleted" with
          | some v2 => rw [h1, h2] at hiso; simp at hiso
          | none => simpa [h1, h2] using hex2
    · simp only [Bool.not_eq_true] at hex
      simp only [hex, if_false]
      exact htr
  · simp only [Bool.not_eq_true] at hid
    simp only [hid, if_false]
    exact htr

theorem storeDelInv_upsert {s : Store} {rec : Rec} {g n : String}
    (hs : storeDelInv s) (hin : inputOk rec = true) :
    storeDelInv (upsert s rec g n).1 := by
  intro r hr
  rcases mem_putRec hr with h | h
  · subst h
    simp only [delOk, decide_eq_true_eq]
    rw [truthyF_upsertFinal_is_delete, truthyF_upsertFinal_deleted]
    exact mergeOf_delOk hs hin
  · exact hs r h

theorem inputOk_logicalDelRec {key now : String} (hn : (now == "") = false) :
    inputOk (logicalDelRec key now) = true := by
  simp [inputOk, logicalDelRec, truthyF, getF, Val.truthy, hn]

theorem storeDelInv_applyOp {s : Store} {op : Op}
    (hs : storeDelInv s) (hop : opOk op = true) :
    storeDelInv (applyOp s op) := by
  cases op with
  | opUpsert rec g n => exact storeDelInv_upsert hs hop
  | opDelete k logical g n =>
      cases logical with
      | false =>
          intro r hr
          exact hs r (List.mem_of_mem_filter hr)
      | true =>
          have hn : (n == "") = false := by simpa [opOk] using hop
          show storeDelInv (deleteOp s k true g n).1
          unfold deleteOp
          simp only [if_true]
          exact storeDelInv_upsert hs (inputOk_logicalDelRec hn)
  | opClear =>
      intro r hr
      cases hr

theorem getF_logicalDelRec_other {key now k : String}
    (h1 : k ≠ "id") (h2 : k ≠ "deleted") (h3 : k ≠ "is_delete") :
    getF (logicalDelRec key now) k = none := by
  simp [logicalDelRec, getF, Ne.symm h1, Ne.symm h2, Ne.symm h3]

/-- C2: for every upsert, field defaulting on the final (merged) record
is applied independently per field — `id` is replaced by the generated
id only when the merged one is falsy, `inserted` by the timestamp only
when the merged one is falsy, `updated` is taken verbatim from the INPUT
record when the caller supplied a truthy value and is the timestamp
otherwise (asymmetric with `inserted`), `deleted` becomes `""` when
falsy, `is_delete` becomes `false` when falsy — and upsert resolves with
the final record's id. -/
theorem C2_upsert_field_defaulting (s : Store) (rec : Rec) (genId now : String) :
    getF (upsertFinal s rec genId now) "id" =
      some (match getF (mergeOf s rec) "id" with
            | some v => if v.truthy then v else Val.vStr genId
            | none => Val.vStr genId) ∧
    getF (upsertFinal s rec genId now) "inserted" =
      some (match getF (mergeOf s rec) "inserted" with
            | some v => if v.truthy then v else Val.vStr now
            | none => Val.vStr now) ∧
    getF (upsertFinal s rec genId now) "updated" =
      some (match getF rec "updated" with
            | some v => if v.truthy then v else Val.vStr now
            | none => Val.vStr now) ∧
    getF (upsertFinal s rec genId now) "deleted" =
      some (match getF (mergeOf s rec) "deleted" with
            | some v => if v.truthy then v else Val.vStr ""
            | none => Val.vStr "") ∧
    getF (upsertFinal s rec genId now) "is_delete" =
      some (match getF (mergeOf s rec) "is_delete" with
            | some v => if v.truthy then v else Val.vBool false
            | none => Val.vBool false) ∧
    (upsert s rec genId now).2 = idStr (upsertFinal s rec genId now) ∧
    (upsert s rec genId now).1 = putRec s (upsertFinal s rec genId now) :=
  ⟨getF_upsertFinal_id s rec genId now, getF_upsertFinal_inserted s rec genId now,
   getF_upsertFinal_updated s rec genId now, getF_upsertFinal_deleted s rec genId now,
   getF_upsertFinal_is_delete s rec genId now, rfl, rfl⟩

/-- C5: `list` builds its key range in priority order — both bounds
equal gives an exact-match range returning exactly the records with that
key; both present and different (here ordered) an inclusive bounded
range; only `from` an open-ended lower bound; only `to` an open-ended
upper bound; neither the full collection — with the claimed slices on
sorted example ids `k1 < k2 < k3`. -/
theorem C5_list_ranges (s : Store) (f t : String) (hlt : strLt f t = true) :
    C5Post s f t := by
  refine ⟨?_, ?_, rfl, rfl, rfl, rfl, rfl, rfl, rfl⟩
  · show (if f = f then Except.ok (s.filter (fun r => idStr r = f))
        else if strLe f f = true then
          Except.ok (s.filter (fun r => strLe f (idStr r) && strLe (idStr r) f))
        else Except.error "DataError") = Except.ok (s.filter (fun r => idStr r = f))
    rw [if_pos rfl]
  · show (if f = t then Except.ok (s.filter (fun r => idStr r = f))
        else if strLe f t = true then
          Except.ok (s.filter (fun r => strLe f (idStr r) && strLe (idStr r) t))
        else Except.error "DataError") =
      Except.ok (s.filter (fun r => strLe f (idStr r) && strLe (idStr r) t))
    rw [if_neg (strLt_ne hlt), if_pos (by simp [strLe, hlt])]

/-- C5 witness: the theorem applied at the example store with the
concrete bounds `k1 < k3`. -/
theorem C5_list_ranges_witness :
    strLt "k1" "k3" = true ∧ C5Post [C5r1, C5r2, C5r3] "k1" "k3" :=
  ⟨by decide, C5_list_ranges [C5r1, C5r2, C5r3] "k1" "k3" (by decide)⟩

/-- C7: contrary to the claim, a creation callback that throws
synchronously during the upgrade phase does not reject `connect` with
the creation-failure error "Failed to create to the database.": the
`try/catch` wraps only the assignment of the `onupgradeneeded` handler,
which cannot throw, so that rejection is unreachable under every run,
and the rejection that actually surfaces comes from the open request's
error event ("Failed to connect to the database."). -/
theorem C7_connect_upgrade_throw :
    connectModel true true true false = ConnectResult.rejectedConnect ∧
    ∀ hasCreateFunc createFuncThrows needsUpgrade openFails,
      isRejectedCreate
        (connectModel hasCreateFunc createFuncThrows needsUpgrade openFails) = false :=
  ⟨rfl, by decide⟩

/-- C10: a non-function `where` value does not make `select` reject; the
condition is treated as always true, so the call resolves with every
record when `includeDeleted` is true and with every non-soft-deleted
record otherwise (the default). -/
theorem C10_select_nonfunction_where (s : Store) (includeDeleted? : Option Bool) :
    selectOp s WhereArg.notFn includeDeleted? =
      if includeDeleted?.getD false then s
      else s.filter (fun r => !truthyF r "is_delete") := by
  unfold selectOp
  cases hb : includeDeleted?.getD false
  · rw [if_neg (by simp)]
    apply List.filter_congr
    intro r _
    unfold visitKeeps
    cases truthyF r "is_delete" <;> rfl
  · rw [if_pos rfl]
    exact List.filter_eq_self.mpr (fun a _ => rfl)

/-- C1: for an upsert whose input carries a non-empty (truthy) id — if
a record with that id exists, the merged record overlays the input's
fields on the existing record per-field (input wins exactly on the
fields it supplies), every non-reserved field of the persisted record
comes from that overlay, `inserted` is kept from the existing record
when the input does not supply one, and `updated` is refreshed to the
timestamp when the input does not supply one; if no record with that id
exists, the final record is the input as given (plus field
defaulting). -/
theorem C1_upsert_merge (s : Store) (rec : Rec) (genId now : String)
    (hid : truthyF rec "id" = true) :
    (truthyF (getOp s (idStr rec)) "id" = true → C1FoundPost s rec genId now) ∧
    (truthyF (getOp s (idStr rec)) "id" = false →
      mergeOf s rec = rec ∧
      (∀ k, k ≠ "id" → k ≠ "inserted" → k ≠ "updated" → k ≠ "deleted" →
        k ≠ "is_delete" → getF (upsertFinal s rec genId now) k = getF rec k)) := by
  constructor
  · intro hex
    refine ⟨getF_mergeOf_found hid hex, ?_, ?_, ?_⟩
    · intro k h1 h2 h3 h4 h5
      rw [getF_upsertFinal_other s rec genId now k h1 h2 h3 h4 h5,
        getF_mergeOf_found hid hex]
    · intro hri hti
      rw [getF_upsertFinal_inserted, getF_mergeOf_found hid hex "inserted", hri]
      revert hti
      unfold truthyF
      cases hgi : getF (getOp s (idStr rec)) "inserted" with
      | none => intro h; exact absurd h (by simp)
      | some v =>
          intro hv
          have hv2 : v.truthy = true := hv
          show some (if v.truthy = true then v else Val.vStr now) = some v
          rw [if_pos hv2]
    · intro hru
      rw [getF_upsertFinal_updated, hru]
  · intro hex
    have hm : mergeOf s rec = rec := mergeOf_not_found hex
    refine ⟨hm, ?_⟩
    intro k h1 h2 h3 h4 h5
    rw [getF_upsertFinal_other s rec genId now k h1 h2 h3 h4 h5, hm]

/-- C1 witness: the theorem applied to the spec's example — a stored
record `{id: "k", a: "A", b: "B", ...}` and the input `{id: "k",
b: "B2"}`. -/
theorem C1_upsert_merge_witness :
    truthyF C1input "id" = true ∧
    truthyF (getOp [C1exist] (idStr C1input)) "id" = true ∧
    C1FoundPost [C1exist] C1input "g" "t1" :=
  ⟨by decide, by decide,
   (C1_upsert_merge [C1exist] C1input "g" "t1" (by decide)).1 (by decide)⟩

/-- C4: upserting a valid record carrying none of the reserved fields
resolves with the freshly generated non-empty id; getting that id
returns the persisted record, which keeps all domain fields of the
input and has `inserted = updated`, `is_delete = false` and
`deleted = ""`; and a `get` miss resolves with the empty-object
sentinel, which has no `id` field. -/
theorem C4_roundtrip (s : Store) (r : Rec) (genId now : String)
    (hid : getF r "id" = none) (hins : getF r "inserted" = none)
    (hupd : getF r "updated" = none) (hdel : getF r "deleted" = none)
    (hisd : getF r "is_delete" = none) (hg : genId ≠ "") :
    C4Post s r genId now ∧ C4Sentinel := by
  have hnt : truthyF r "id" = false := by unfold truthyF; rw [hid]
  have hm : mergeOf s r = r := mergeOf_no_id hnt
  have hfid : getF (upsertFinal s r genId now) "id" = some (Val.vStr genId) := by
    rw [getF_upsertFinal_id, hm, hid]
  have hidf : idStr (upsertFinal s r genId now) = genId := by
    unfold idStr
    rw [hfid]
  refine ⟨⟨hidf, hg, ?_, ?_, hfid, ?_, ?_, ?_, ?_⟩, ?_⟩
  · have h := getOp_putRec s (upsertFinal s r genId now)
    rw [hidf] at h
    exact h
  · intro k h1 h2 h3 h4 h5
    rw [getF_upsertFinal_other s r genId now k h1 h2 h3 h4 h5, hm]
  · rw [getF_upsertFinal_inserted, getF_upsertFinal_updated, hm, hins, hupd]
  · rw [getF_upsertFinal_inserted, hm, hins]
  · rw [getF_upsertFinal_is_delete, hm, hisd]
  · rw [getF_upsertFinal_deleted, hm, hdel]
  · intro s0 key hk
    exact ⟨getOp_not_found hk, rfl⟩

/-- C4 witness: the theorem applied to the fresh record
`{name: "Alice", age: 28}` upserted into the empty store. -/
theorem C4_roundtrip_witness :
    getF C4input "id" = none ∧ getF C4input "inserted" = none ∧
    getF C4input "updated" = none ∧ getF C4input "deleted" = none ∧
    getF C4input "is_delete" = none ∧ ("g" : String) ≠ "" ∧
    (C4Post [] C4input "g" "t" ∧ C4Sentinel) :=
  ⟨rfl, rfl, rfl, rfl, rfl, by decide,
   C4_roundtrip [] C4input "g" "t" rfl rfl rfl rfl rfl (by decide)⟩

/-- C3 counterexample: the claim quantifies over every key, but a
logical delete of the empty key upserts `{id: "", ...}`, whose falsy id
makes upsert generate a fresh id — so the record is stored under the
generated id and `get("")` afterwards returns the empty sentinel, whose
`is_delete` is not true as the claim requires. -/
theorem C3_counterexample :
    ¬ (truthyF (getOp (deleteOp [] "" true "g" "t").1 "") "is_delete" = true) := by
  decide

/-- C3 (amended to non-empty keys and a non-empty timestamp): logical
delete performs exactly the upsert of `{id: key, is_delete: true,
deleted: now()}` through the full merge logic, resolves `true` with no
existence check; afterwards a get of the key yields `is_delete = true`
and a non-empty `deleted`, all non-reserved fields of a previously
existing record are preserved, and the record is excluded from a
default `select` but included in `list` and in `select` with
`includeDeleted: true`. -/
theorem C3_logical_delete (s : Store) (key genId now : String)
    (hk : key ≠ "") (hn : now ≠ "") : C3Post s key genId now := by
  have hgid : getF (logicalDelRec key now) "id" = some (Val.vStr key) := rfl
  have htid : truthyF (logicalDelRec key now) "id" = true := by
    unfold truthyF
    rw [hgid]
    simp [Val.truthy, hk]
  have hm0id : getF (mergeOf s (logicalDelRec key now)) "id" =
      some (Val.vStr key) := by
    by_cases hex : truthyF (getOp s (idStr (logicalDelRec key now))) "id" = true
    · rw [getF_mergeOf_found htid hex "id", hgid]
    · rw [mergeOf_not_found (by simpa using hex)]
      exact hgid
  have hm0isd : getF (mergeOf s (logicalDelRec key now)) "is_delete" =
      some (Val.vBool true) := by
    by_cases hex : truthyF (getOp s (idStr (logicalDelRec key now))) "id" = true
    · rw [getF_mergeOf_found htid hex "is_delete"]
      rfl
    · rw [mergeOf_not_found (by simpa using hex)]
      rfl
  have hm0del : getF (mergeOf s (logicalDelRec key now)) "deleted" =
      some (Val.vStr now) := by
    by_cases hex : truthyF (getOp s (idStr (logicalDelRec key now))) "id" = true
    · rw [getF_mergeOf_found htid hex "deleted"]
      rfl
    · rw [mergeOf_not_found (by simpa using hex)]
      rfl
  have hfid : getF (upsertFinal s (logicalDelRec key now) genId now) "id" =
      some (Val.vStr key) := by
    rw [getF_upsertFinal_id, hm0id]
    simp [Val.truthy, hk]
  have hidf : idStr (upsertFinal s (logicalDelRec key now) genId now) = key := by
    unfold idStr
    rw [hfid]
  have hisd : truthyF (upsertFinal s (logicalDelRec key now) genId now)
      "is_delete" = true := by
    rw [truthyF_upsertFinal_is_delete]
    unfold truthyF
    rw [hm0isd]
    rfl
  have hdelt : truthyF (upsertFinal s (logicalDelRec key now) genId now)
      "deleted" = true := by
    rw [truthyF_upsertFinal_deleted]
    unfold truthyF
    rw [hm0del]
    simp [Val.truthy, hn]
  refine ⟨rfl, rfl, ?_, hisd, hdelt, ?_, ?_, rfl, ?_, ?_⟩
  · have h := getOp_putRec s (upsertFinal s (logicalDelRec key now) genId now)
    rw [hidf] at h
    exact h
  · intro hfound k h1 h2 h3 h4 h5
    rw [getF_upsertFinal_other _ _ _ _ k h1 h2 h3 h4 h5,
      getF_mergeOf_found htid hfound k, getF_logicalDelRec_other h1 h4 h5]
    rfl
  · intro w hmem
    have hv : visitKeeps false w (upsertFinal s (logicalDelRec key now) genId now) =
        true := (List.mem_filter.mp hmem).2
    rw [visitKeeps_deleted hisd] at hv
    exact Bool.noConfusion hv
  · exact self_mem_putRec s (upsertFinal s (logicalDelRec key now) genId now)
  · exact List.mem_filter.mpr
      ⟨self_mem_putRec s (upsertFinal s (logicalDelRec key now) genId now), rfl⟩

/-- C3 witness: the amended theorem applied to a store holding the
record `{id: "k", a: "A", b: "B", ...}`, deleting key `k` logically
with timestamp `t9`. -/
theorem C3_logical_delete_witness :
    ("k" : String) ≠ "" ∧ ("t9" : String) ≠ "" ∧ C3Post [C3exist] "k" "g" "t9" :=
  ⟨by decide, by decide,
   C3_logical_delete [C3exist] "k" "g" "t9" (by decide) (by decide)⟩

/-- C6 counterexample: the invariant is not maintained against every
operation sequence — a single upsert whose input carries
`is_delete: true` but no `deleted` persists a record that is marked
deleted yet has an empty `deleted` (the repository's own test suite
performs exactly such an upsert). -/
theorem C6_counterexample :
    ¬ (∀ r ∈ runOps [] [Op.opUpsert [("is_delete", Val.vBool true)] "g" "t"],
        delOk r = true) := by
  decide

/-- C6 (amended): the soft-delete invariant — `is_delete` truthy exactly
when `deleted` is non-empty — is preserved by every sequence of upserts,
logical deletes, physical deletes and clears, provided each upsert input
supplies `is_delete` and `deleted` consistently (together and with equal
truthiness) and each logical delete has a non-empty timestamp. -/
theorem C6_soft_delete_invariant (s : Store) (ops : List Op)
    (hs : storeDelInv s) (hops : ∀ op ∈ ops, opOk op = true) :
    storeDelInv (runOps s ops) := by
  induction ops generalizing s with
  | nil => exact hs
  | cons op rest ih =>
      exact ih (applyOp s op)
        (storeDelInv_applyOp hs (hops op (List.mem_cons_self op rest)))
        (fun o ho => hops o (List.mem_cons_of_mem op ho))

/-- C6 witness: the amended theorem run from the empty store over an
upsert, a logical delete of the created id, and a clear. -/
theorem C6_soft_delete_invariant_witness :
    storeDelInv [] ∧
    (∀ op ∈ [Op.opUpsert [("name", Val.vStr "A")] "g" "t",
             Op.opDelete "g" true "g2" "t2", Op.opClear], opOk op = true) ∧
    storeDelInv (runOps [] [Op.opUpsert [("name", Val.vStr "A")] "g" "t",
             Op.opDelete "g" true "g2" "t2", Op.opClear]) :=
  ⟨fun r hr => absurd hr (List.not_mem_nil r),
   by decide,
   C6_soft_delete_invariant [] _ (fun r hr => absurd hr (List.not_mem_nil r))
     (by decide)⟩

/-- C8: a predicate that throws on a visited record is caught, the
record is excluded from the result (as if the predicate returned
false), and the scan continues — the remaining records contribute to
the result exactly as they would without the bad record, on every
`includeDeleted` setting. -/
theorem C8_select_predicate_throws (s1 s2 : Store) (r : Rec)
    (f : Rec → Except String Bool) (includeDeleted? : Option Bool) (e : String)
    (hf : f r = Except.error e) :
    (∀ l : Store, r ∉ selectOp l (WhereArg.fn f) includeDeleted?) ∧
    selectOp (s1 ++ r :: s2) (WhereArg.fn f) includeDeleted? =
      selectOp s1 (WhereArg.fn f) includeDeleted? ++
        selectOp s2 (WhereArg.fn f) includeDeleted? := by
  have hv : visitKeeps (includeDeleted?.getD false) (WhereArg.fn f) r = false :=
    visitKeeps_throw hf _
  constructor
  · intro l hmem
    have h := (List.mem_filter.mp hmem).2
    rw [hv] at h
    exact Bool.noConfusion h
  · unfold selectOp
    rw [List.filter_append, List.filter_cons, hv]
    simp

/-- C8 witness: the theorem applied to a scan of a live record, the
record the predicate throws on, and another live record. -/
theorem C8_select_predicate_throws_witness :
    throwingWhere badRec = Except.error "boom" ∧
    (∀ l : Store, badRec ∉ selectOp l (WhereArg.fn throwingWhere) none) ∧
    selectOp ([liveRec] ++ badRec :: [liveRec]) (WhereArg.fn throwingWhere) none =
      selectOp [liveRec] (WhereArg.fn throwingWhere) none ++
        selectOp [liveRec] (WhereArg.fn throwingWhere) none := by
  have h := C8_select_predicate_throws [liveRec] [liveRec] badRec
    throwingWhere none "boom" rfl
  exact ⟨rfl, h.1, h.2⟩

/-- C9: the `select` method of every store object produced by
`defineStore` (and forwarded unchanged by `bindStore`) calls the select
primitive with `includeDeleted` equal to the negation of the store's
`logicalDelete` default, which itself defaults to `true` — so a store
with default settings never returns a soft-deleted record from
`select`, and a store created with `logicalDelete: false` returns every
record. -/
theorem C9_store_select_includeDeleted :
    (∀ (logicalDelete? : Option Bool) (s : Store)
        (w : Option (Rec → Except String Bool)),
      definedStoreSelect logicalDelete? s w =
        selectOp s (WhereArg.fn (w.getD (fun _ => Except.ok true)))
          (some (!(logicalDelete?.getD true)))) ∧
    (∀ (logicalDelete? : Option Bool) (s : Store)
        (w : Option (Rec → Except String Bool)),
      boundStoreSelect logicalDelete? s w = definedStoreSelect logicalDelete? s w) ∧
    (∀ (s : Store) (w : Option (Rec → Except String Bool)) (r : Rec),
      r ∈ definedStoreSelect none s w → truthyF r "is_delete" = false) ∧
    (∀ s : Store, definedStoreSelect (some false) s none = s) := by
  refine ⟨fun _ _ _ => rfl, fun _ _ _ => rfl, ?_, ?_⟩
  · intro s w r hmem
    have hv : visitKeeps false (WhereArg.fn (w.getD (fun _ => Except.ok true))) r =
        true := (List.mem_filter.mp hmem).2
    by_contra hne
    rw [Bool.not_eq_false] at hne
    rw [visitKeeps_deleted hne] at hv
    exact Bool.noConfusion hv
  · intro s
    exact List.filter_eq_self.mpr (fun a _ => rfl)

/-- C9 witness: the theorem's exclusion property applied to a live
record selected by a default-settings store. -/
theorem C9_store_select_includeDeleted_witness :
    liveRec ∈ definedStoreSelect none [liveRec] none ∧
    truthyF liveRec "is_delete" = false :=
  ⟨by decide,
   C9_store_select_includeDeleted.2.2.1 [liveRec] none liveRec (by decide)⟩

end OfcIDB
